import Mathlib

/-!
# Verification of the recommendation engine core

Shallow embedding of `src/models/recommendation_engine.py`.

Modelling conventions:
* pandas rows become Lean structures; a DataFrame becomes a `List` of rows.
* Float scores are modelled as exact rationals (`ℚ`); cosine similarity, which
  involves square roots, is modelled exactly in `ℝ`.
* Python's `sorted(xs, key=lambda x: x[1], reverse=True)` is a *stable*
  descending sort.  The code always sorts a list produced by `enumerate`, whose
  first components are strictly increasing, so the stable descending sort by
  score coincides with sorting by the total lexicographic order
  "score descending, then index ascending".  We embed it as
  `List.insertionSort rankRel` with that lexicographic relation.
* `pandas.DataFrame.nlargest(n, col)` (default `keep='first'`) returns the rows
  ordered by `col` descending, ties kept in original row order; that is the
  same stable descending sort followed by `take n`.
* Python `set` iteration order is unspecified; it is modelled as an explicit
  `order : List String` argument ranging over the duplicate-free listings of
  the set.
* `sklearn.MinMaxScaler` rescales each column by `(x - min) / (max - min)` and
  replaces a zero range by 1 (`_handle_zeros_in_scale`), so a constant column
  maps to all zeros; `minmaxScale` below reproduces exactly that.
* `sklearn.cosine_similarity` normalizes rows, leaving all-zero rows at zero,
  so a zero-norm vector has similarity 0 with everything; `cosineSim` below
  reproduces that convention.
-/

namespace RecEngine

/-- A row of `products_df`: columns `product_id`, `name`, `category`, `price`,
`rating`, `views`, `purchases`. -/
structure Product where
  product_id : String
  name : String
  category : String
  price : ℚ
  rating : ℚ
  views : ℕ
  purchases : ℕ
deriving DecidableEq, Inhabited

/-- A row of `interactions_df`: columns `user_id`, `product_id`,
`interaction_type`, `rating`, `timestamp`. -/
structure Interaction where
  user_id : String
  product_id : String
  interaction_type : String
  rating : Option ℚ
  timestamp : String
deriving DecidableEq, Inhabited

/-- The dict built by `get_similar_products` for each similar product. -/
structure SimItem where
  product_id : String
  name : String
  category : String
  price : ℚ
  rating : ℚ
  similarity_score : ℚ
deriving DecidableEq, Inhabited

/-- The dict built by `get_trending_products` for each trending product. -/
structure TrendItem where
  product_id : String
  name : String
  category : String
  price : ℚ
  rating : ℚ
  views : ℕ
  purchases : ℕ
deriving DecidableEq, Inhabited

/-- The dict built by `get_products_by_category`. -/
structure CatItem where
  product_id : String
  name : String
  category : String
  price : ℚ
  rating : ℚ
deriving DecidableEq, Inhabited

/-! ## Feature encoding (`_compute_product_similarity`, lines 64-78) -/

/-- The distinct category values present in the catalog: the columns of
`pd.get_dummies(products_df['category'])`.  `get_dummies` sorts its columns
alphabetically; the column order only permutes feature coordinates and is
irrelevant to every dot product, so we keep `List.dedup` order. -/
def catColumns (catalog : List Product) : List String :=
  (catalog.map Product.category).dedup

/-- One-hot encoding of one category value against the column list. -/
def oneHot (cats : List String) (c : String) : List ℚ :=
  cats.map (fun d => if c = d then 1 else 0)

/-- Minimum of a column, as computed over a pandas column (0 for an empty
column, a case `MinMaxScaler` never sees on a non-empty catalog). -/
def colMin : List ℚ → ℚ
  | [] => 0
  | x :: xs => xs.foldl min x

/-- Maximum of a column. -/
def colMax : List ℚ → ℚ
  | [] => 0
  | x :: xs => xs.foldl max x

/-- Embedding of `sklearn.MinMaxScaler().fit_transform` on one column:
`(x - min) / (max - min)`, with a zero range replaced by 1 (its
`_handle_zeros_in_scale`), which maps a constant column to all zeros. -/
def minmaxScale (xs : List ℚ) : List ℚ :=
  if colMax xs = colMin xs then xs.map (fun _ => 0)
  else xs.map (fun x => (x - colMin xs) / (colMax xs - colMin xs))

/-- Row `i` of the feature matrix `np.hstack([category_dummies, normalized]placeholder)`:
one-hot category columns followed by the min-max scaled `price` and `rating`. -/
def featureRow (catalog : List Product) (i : ℕ) : List ℚ :=
  oneHot (catColumns catalog) ((catalog.getD i default).category) ++
    [(minmaxScale (catalog.map Product.price)).getD i 0,
     (minmaxScale (catalog.map Product.rating)).getD i 0]

/-- Dot product of two feature vectors (extra coordinates of the longer vector
are ignored; all vectors we form have equal width). -/
def dotQ : List ℚ → List ℚ → ℚ
  | x :: xs, y :: ys => x * y + dotQ xs ys
  | _, _ => 0

/-- Embedding of `sklearn.metrics.pairwise.cosine_similarity` on two rows:
`⟨u,v⟩ / (‖u‖‖v‖)`, with the sklearn convention that a zero-norm row is left
unnormalized, making its similarity with everything 0. -/
noncomputable def cosineSim (u v : List ℚ) : ℝ :=
  if dotQ u u = 0 ∨ dotQ v v = 0 then 0
  else (dotQ u v : ℝ) / (Real.sqrt (dotQ u u) * Real.sqrt (dotQ v v))

/-- Entry `(i, j)` of `self.product_similarity_matrix` as the real number the
float entry approximates. -/
noncomputable def product_similarity_matrixR (catalog : List Product) (i j : ℕ) : ℝ :=
  cosineSim (featureRow catalog i) (featureRow catalog j)

/-! ## Ranking (Python's stable `sorted(..., reverse=True)` on enumerated rows) -/

/-- Total lexicographic order "score descending, then index ascending".
On a list with strictly increasing indices — every list the code sorts is an
`enumerate` — sorting by this relation is exactly Python's stable
`sorted(key=lambda x: x[1], reverse=True)`. -/
def rankRel (a b : ℕ × ℚ) : Prop :=
  b.2 < a.2 ∨ (a.2 = b.2 ∧ a.1 ≤ b.1)

instance decRankRel : DecidableRel rankRel := fun a b =>
  decidable_of_iff (b.2 < a.2 ∨ (a.2 = b.2 ∧ a.1 ≤ b.1)) Iff.rfl

instance : IsTotal (ℕ × ℚ) rankRel :=
  ⟨fun a b => by
    unfold rankRel
    rcases lt_trichotomy a.2 b.2 with h | h | h
    · exact Or.inr (Or.inl h)
    · rcases Nat.le_total a.1 b.1 with h1 | h1
      · exact Or.inl (Or.inr ⟨h, h1⟩)
      · exact Or.inr (Or.inr ⟨h.symm, h1⟩)
    · exact Or.inl (Or.inl h)⟩

instance : IsTrans (ℕ × ℚ) rankRel :=
  ⟨fun a b c hab hbc => by
    unfold rankRel at *
    rcases hab with h1 | ⟨h1, h1i⟩ <;> rcases hbc with h2 | ⟨h2, h2i⟩
    · exact Or.inl (h2.trans h1)
    · exact Or.inl (h2 ▸ h1)
    · exact Or.inl (h1 ▸ h2)
    · exact Or.inr ⟨h1.trans h2, h1i.trans h2i⟩⟩

/-! ## `get_similar_products` (lines 119-157) -/

/-- The list `list(enumerate(self.product_similarity_matrix[i]))` for a catalog of `n`
rows. -/
def scoredIndices (M : ℕ → ℕ → ℚ) (n i : ℕ) : List (ℕ × ℚ) :=
  (List.range n).map (fun j => (j, M i j))

/-- The `similarity_scores` variable after
`sorted(..., key=lambda x: x[1], reverse=True)[1:limit+1]`. -/
def similarity_scores (M : ℕ → ℕ → ℚ) (n i limit : ℕ) : List (ℕ × ℚ) :=
  ((List.insertionSort rankRel (scoredIndices M n i)).drop 1).take limit

/-- The dict appended for row `idx` with score `score`
(`self.products_df.iloc[idx]`). -/
def mkSimItem (catalog : List Product) (idx : ℕ) (score : ℚ) : SimItem :=
  let p := catalog.getD idx default
  ⟨p.product_id, p.name, p.category, p.price, p.rating, score⟩

/-- Embedding of `get_similar_products(product_id, limit)`.  The similarity matrix is the
engine state `self.product_similarity_matrix`, passed explicitly.  The
`except (IndexError, KeyError)` path (unknown id) is the `none` branch of
`findIdx?`, returning `[]`. -/
def get_similar_products (catalog : List Product) (M : ℕ → ℕ → ℚ)
    (product_id : String) (limit : ℕ) : List SimItem :=
  if catalog.isEmpty then []
  else
    match catalog.findIdx? (fun p => p.product_id == product_id) with
    | none => []
    | some i =>
        (similarity_scores M catalog.length i limit).map
          (fun js => mkSimItem catalog js.1 js.2)

/-! ## `get_trending_products` (lines 159-186) -/

/-- The score `df['trending_score'] = views * 0.3 + purchases * 0.5 + rating * 100 * 0.2`. -/
def trending_score (p : Product) : ℚ :=
  (p.views : ℚ) * (3 / 10) + (p.purchases : ℚ) * (1 / 2) + p.rating * 100 * (1 / 5)

/-- The catalog rows enumerated with their trending scores. -/
def trendingScored (catalog : List Product) : List (ℕ × ℚ) :=
  (List.range catalog.length).map (fun j => (j, trending_score (catalog.getD j default)))

/-- The rows selected by `df.nlargest(limit, 'trending_score')`: stable
descending sort by score (ties keep original row order, pandas
`keep='first'`), then the first `limit`. -/
def trendingRanked (catalog : List Product) (limit : ℕ) : List (ℕ × ℚ) :=
  (List.insertionSort rankRel (trendingScored catalog)).take limit

/-- The dict built for catalog row `idx`. -/
def mkTrendItem (catalog : List Product) (idx : ℕ) : TrendItem :=
  let p := catalog.getD idx default
  ⟨p.product_id, p.name, p.category, p.price, p.rating, p.views, p.purchases⟩

/-- Embedding of `get_trending_products(limit)`.  The Python works on `df.copy()`, so the
engine state is untouched; the embedding is a pure function of the catalog. -/
def get_trending_products (catalog : List Product) (limit : ℕ) : List TrendItem :=
  if catalog.isEmpty then []
  else (trendingRanked catalog limit).map (fun js => mkTrendItem catalog js.1)

/-! ## `get_products_by_category` (lines 188-209) -/

/-- Embedding of `get_products_by_category(category, limit)`: case-insensitive match on the
category column, then `nlargest(limit, 'rating')`. -/
def get_products_by_category (catalog : List Product) (category : String)
    (limit : ℕ) : List CatItem :=
  if catalog.isEmpty then []
  else
    let idxs := (List.range catalog.length).filter
      (fun j => (catalog.getD j default).category.toLower == category.toLower)
    let scored := idxs.map (fun j => (j, (catalog.getD j default).rating))
    ((List.insertionSort rankRel scored).take limit).map
      (fun js =>
        let p := catalog.getD js.1 default
        ⟨p.product_id, p.name, p.category, p.price, p.rating⟩)

/-! ## Engine state, interaction log, `get_recommendations_for_user` -/

/-- The mutable engine state: `self.products_df`, `self.interactions_df` and
`self.product_similarity_matrix`. -/
structure Engine where
  products_df : List Product
  interactions_df : List Interaction
  product_similarity_matrix : ℕ → ℕ → ℚ

/-- The rows `self.interactions_df[self.interactions_df['user_id'] == user_id]`. -/
def userInteractions (e : Engine) (user_id : String) : List Interaction :=
  e.interactions_df.filter (fun r => r.user_id == user_id)

/-- The membership of `set(user_interactions['product_id'].tolist())`, as a
duplicate-free list in first-occurrence order.  The Python `set` has
unspecified iteration order; any `Nodup` permutation of this list is a
possible iteration order. -/
def interactedProducts (e : Engine) (user_id : String) : List String :=
  ((userInteractions e user_id).map Interaction.product_id).dedup

/-- Predicate: `order` is a possible iteration order of the user's interacted-product
set: duplicate-free and listing exactly the set's members. -/
def IsSetOrder (e : Engine) (user_id : String) (order : List String) : Prop :=
  order.Nodup ∧ List.Perm order (interactedProducts e user_id)

/-- The `recommendations` list after the `for product_id in
interacted_products` loop: candidate lists concatenated in iteration order,
each fetched with the fixed internal width `limit=10`. -/
def candidateStream (e : Engine) (order : List String) : List SimItem :=
  order.flatMap (fun pid =>
    get_similar_products e.products_df e.product_similarity_matrix pid 10)

/-- The list `recommendations` after the list comprehension that filters out already
interacted products. -/
def filteredCandidates (e : Engine) (user_id : String) (order : List String) :
    List SimItem :=
  (candidateStream e order).filter
    (fun r => decide (r.product_id ∉ interactedProducts e user_id))

/-- The `seen`-set loop building `unique_recommendations`: keep each record
whose `product_id` has not been seen, first occurrence wins. -/
def dedupLoop : List SimItem → List String → List SimItem
  | [], _ => []
  | r :: rest, seen =>
    if r.product_id ∈ seen then dedupLoop rest seen
    else r :: dedupLoop rest (r.product_id :: seen)

/-- Embedding of `get_recommendations_for_user(user_id, limit)`.  The two branches return
dicts of different shapes in Python (trending dicts vs similarity dicts),
modelled as a sum.  `order` is the iteration order of the interacted-product
hash set. -/
def get_recommendations_for_user (e : Engine) (user_id : String) (limit : ℕ)
    (order : List String) : List SimItem ⊕ List TrendItem :=
  if (userInteractions e user_id).isEmpty then
    Sum.inr (get_trending_products e.products_df limit)
  else
    Sum.inl ((dedupLoop (filteredCandidates e user_id order) []).take limit)

/-- The product ids of a result list from either branch. -/
def resultProductIds : List SimItem ⊕ List TrendItem → List String
  | Sum.inl l => l.map SimItem.product_id
  | Sum.inr l => l.map TrendItem.product_id

/-! ## `add_user_interaction` (lines 211-227) -/

/-- Embedding of `add_user_interaction(user_id, product_id, interaction_type, rating)`:
builds the new row (`datetime.now().isoformat()` is the `timestamp`
argument), appends it with `pd.concat`, and returns `True`. -/
def add_user_interaction (e : Engine) (user_id product_id : String)
    (interaction_type : String) (rating : Option ℚ) (timestamp : String) :
    Bool × Engine :=
  (true,
    { e with
      interactions_df :=
        e.interactions_df ++ [⟨user_id, product_id, interaction_type, rating, timestamp⟩] })

/-! ## Concrete instances used in witnesses and counterexamples -/

/-- Two catalog rows with identical `category`, `price` and `rating`: their
feature vectors coincide, so their cosine similarity ties at 1. -/
def catDup : List Product :=
  [⟨"P001", "Product 1", "A", 10, 4, 100, 10⟩,
   ⟨"P002", "Product 2", "A", 10, 4, 100, 10⟩]

/-- Four rows, categories alternating between "A" and "B", identical numeric
columns: feature vectors are the two unit vectors `[1,0,0,0]` and
`[0,1,0,0]`, so the similarity matrix is 1 on equal parity and 0 otherwise. -/
def cat4 : List Product :=
  [⟨"P1", "N1", "A", 10, 4, 0, 0⟩,
   ⟨"P2", "N2", "B", 10, 4, 0, 0⟩,
   ⟨"P3", "N3", "A", 10, 4, 0, 0⟩,
   ⟨"P4", "N4", "B", 10, 4, 0, 0⟩]

/-- The exact similarity matrix of `cat4`. -/
def M4 : ℕ → ℕ → ℚ := fun i j => if i % 2 = j % 2 then 1 else 0

/-- Engine over `cat4` where user "u" has interacted with "P1" and "P2". -/
def e4 : Engine :=
  ⟨cat4, [⟨"u", "P1", "view", none, "t1"⟩, ⟨"u", "P2", "view", none, "t2"⟩], M4⟩

/-- Engine over `cat4` where user "u" has interacted with "P1" only. -/
def e1 : Engine := ⟨cat4, [⟨"u", "P1", "view", none, "t1"⟩], M4⟩

/-- An engine with an empty catalog but a recorded interaction. -/
def eEmpty : Engine := ⟨[], [⟨"u", "P1", "view", none, "t1"⟩], fun _ _ => 0⟩

/-! ## Dot-product and cosine lemmas -/

lemma dotQ_comm : ∀ u v : List ℚ, dotQ u v = dotQ v u
  | [], [] => rfl
  | [], _ :: _ => rfl
  | _ :: _, [] => rfl
  | x :: xs, y :: ys => by
    show x * y + dotQ xs ys = y * x + dotQ ys xs
    rw [dotQ_comm xs ys, mul_comm]

lemma dotQ_self_nonneg : ∀ v : List ℚ, 0 ≤ dotQ v v
  | [] => le_refl 0
  | x :: xs => by
    show 0 ≤ x * x + dotQ xs xs
    exact add_nonneg (mul_self_nonneg x) (dotQ_self_nonneg xs)

lemma cosineSim_comm (u v : List ℚ) : cosineSim u v = cosineSim v u := by
  unfold cosineSim
  by_cases h1 : dotQ u u = 0 <;> by_cases h2 : dotQ v v = 0 <;>
    simp [h1, h2, dotQ_comm u v, mul_comm]

lemma cosineSim_self (v : List ℚ) (h : dotQ v v ≠ 0) : cosineSim v v = 1 := by
  have hnn : (0 : ℝ) ≤ ((dotQ v v : ℚ) : ℝ) := by
    exact_mod_cast dotQ_self_nonneg v
  have hne : ((dotQ v v : ℚ) : ℝ) ≠ 0 := by exact_mod_cast h
  rw [cosineSim, if_neg (by simp [h]), Real.mul_self_sqrt hnn, div_self hne]

lemma cosineSim_zero_left (u v : List ℚ) (h : dotQ u u = 0) : cosineSim u v = 0 := by
  rw [cosineSim, if_pos (Or.inl h)]

lemma cosineSim_zero_right (u v : List ℚ) (h : dotQ v v = 0) : cosineSim u v = 0 := by
  rw [cosineSim, if_pos (Or.inr h)]

lemma cosineSim_of_dot_zero (u v : List ℚ) (h : dotQ u v = 0) : cosineSim u v = 0 := by
  rw [cosineSim]
  split
  · rfl
  · rw [h]
    simp

/-! ## Column min/max and scaling lemmas -/

lemma foldl_min_le_init : ∀ (l : List ℚ) (a : ℚ), l.foldl min a ≤ a
  | [], _ => le_refl _
  | b :: l, a => (foldl_min_le_init l (min a b)).trans (min_le_left a b)

lemma foldl_min_le_mem : ∀ (l : List ℚ) (a x : ℚ), x ∈ l → l.foldl min a ≤ x
  | b :: l, a, x, hx => by
    rcases List.mem_cons.mp hx with rfl | hx
    · exact (foldl_min_le_init l (min a x)).trans (min_le_right a x)
    · exact foldl_min_le_mem l (min a b) x hx

lemma init_le_foldl_max : ∀ (l : List ℚ) (a : ℚ), a ≤ l.foldl max a
  | [], _ => le_refl _
  | b :: l, a => (le_max_left a b).trans (init_le_foldl_max l (max a b))

lemma mem_le_foldl_max : ∀ (l : List ℚ) (a x : ℚ), x ∈ l → x ≤ l.foldl max a
  | b :: l, a, x, hx => by
    rcases List.mem_cons.mp hx with rfl | hx
    · exact (le_max_right a x).trans (init_le_foldl_max l (max a x))
    · exact mem_le_foldl_max l (max a b) x hx

lemma colMin_le (xs : List ℚ) (x : ℚ) (hx : x ∈ xs) : colMin xs ≤ x := by
  cases xs with
  | nil => cases hx
  | cons y ys =>
    rcases List.mem_cons.mp hx with rfl | hx
    · exact foldl_min_le_init ys x
    · exact foldl_min_le_mem ys y x hx

lemma le_colMax (xs : List ℚ) (x : ℚ) (hx : x ∈ xs) : x ≤ colMax xs := by
  cases xs with
  | nil => cases hx
  | cons y ys =>
    rcases List.mem_cons.mp hx with rfl | hx
    · exact init_le_foldl_max ys x
    · exact mem_le_foldl_max ys y x hx

/-! ## Ranking lemmas -/

/-- Stable descending sort output is sorted for the full lexicographic order:
scores descend, and equal scores keep ascending catalog indices. -/
lemma similarity_scores_pairwise (M : ℕ → ℕ → ℚ) (n i limit : ℕ) :
    List.Pairwise rankRel (similarity_scores M n i limit) :=
  (List.sorted_insertionSort rankRel (scoredIndices M n i)).sublist
    ((List.take_sublist _ _).trans (List.drop_sublist _ _))

lemma rankRel_snd_le {a b : ℕ × ℚ} (h : rankRel a b) : b.2 ≤ a.2 := by
  rcases h with h | ⟨h, _⟩
  · exact h.le
  · exact h.ge

/-- Everything kept by `take n` from a `Pairwise`-sorted list dominates
everything it discards. -/
lemma pairwise_take_drop {α : Type} {r : α → α → Prop} {l : List α}
    (h : List.Pairwise r l) (n : ℕ) :
    ∀ a ∈ l.take n, ∀ b ∈ l.drop n, r a b := by
  rw [← List.take_append_drop n l, List.pairwise_append] at h
  intro a ha b hb
  exact h.2.2 a ha b hb

/-! ## `dedupLoop` lemmas -/

lemma dedupLoop_sublist : ∀ (l : List SimItem) (seen : List String),
    List.Sublist (dedupLoop l seen) l
  | [], _ => List.Sublist.refl _
  | r :: rest, seen => by
    rw [dedupLoop]
    split
    · exact (dedupLoop_sublist rest seen).cons r
    · exact (dedupLoop_sublist rest (r.product_id :: seen)).cons₂ r

lemma dedupLoop_not_seen : ∀ (l : List SimItem) (seen : List String) (r : SimItem),
    r ∈ dedupLoop l seen → r.product_id ∉ seen
  | [], _, _, h => absurd h (List.not_mem_nil _)
  | x :: rest, seen, r, h => by
    rw [dedupLoop] at h
    split at h
    · exact dedupLoop_not_seen rest seen r h
    · rcases List.mem_cons.mp h with rfl | h
      · assumption
      · have := dedupLoop_not_seen rest (x.product_id :: seen) r h
        exact fun hc => this (List.mem_cons_of_mem _ hc)

/-- Every record the `seen`-set loop keeps is the *first* record of the input
stream with its product id (so it carries that occurrence's score). -/
lemma dedupLoop_find? : ∀ (l : List SimItem) (seen : List String) (r : SimItem),
    r ∈ dedupLoop l seen →
    l.find? (fun s => s.product_id == r.product_id) = some r
  | [], _, _, h => absurd h (List.not_mem_nil _)
  | x :: rest, seen, r, h => by
    rw [dedupLoop] at h
    split at h
    · next hxseen =>
      have hne : x.product_id ≠ r.product_id := by
        intro he
        exact dedupLoop_not_seen rest seen r h (he ▸ hxseen)
      rw [List.find?_cons_of_neg _ (by simpa using hne)]
      exact dedupLoop_find? rest seen r h
    · next hxseen =>
      rcases List.mem_cons.mp h with rfl | h
      · exact List.find?_cons_of_pos _ (by simp)
      · have hnotin := dedupLoop_not_seen rest (x.product_id :: seen) r h
        have hne : x.product_id ≠ r.product_id := by
          intro he
          exact hnotin (he ▸ List.mem_cons_self _ _)
        rw [List.find?_cons_of_neg _ (by simpa using hne)]
        exact dedupLoop_find? rest (x.product_id :: seen) r h

lemma dedupLoop_nodup : ∀ (l : List SimItem) (seen : List String),
    ((dedupLoop l seen).map SimItem.product_id).Nodup
  | [], _ => List.nodup_nil
  | x :: rest, seen => by
    rw [dedupLoop]
    split
    · exact dedupLoop_nodup rest seen
    · rw [List.map_cons, List.nodup_cons]
      refine ⟨?_, dedupLoop_nodup rest (x.product_id :: seen)⟩
      intro hmem
      obtain ⟨s, hs, hpid⟩ := List.mem_map.mp hmem
      exact dedupLoop_not_seen rest (x.product_id :: seen) s hs
        (by rw [hpid]; exact List.mem_cons_self _ _)

/-- The scenario catalog of spec §8: three products with distinct prices,
ratings and popularity counters. -/
def cat3 : List Product :=
  [⟨"P1", "n1", "Electronics", 100, 9/2, 1000, 50⟩,
   ⟨"P2", "n2", "Electronics", 110, 4, 500, 20⟩,
   ⟨"P3", "n3", "Books", 10, 5, 10, 1⟩]

/-! ## Claim theorems -/

/-- **C10**: `add_user_interaction` always returns `True`, appends exactly one
record at the end of the interaction log leaving every earlier record in
place, and leaves the product catalog and the similarity matrix untouched. -/
theorem add_user_interaction_frame (e : Engine) (uid pid ty : String)
    (r : Option ℚ) (ts : String) :
    (add_user_interaction e uid pid ty r ts).1 = true ∧
    (add_user_interaction e uid pid ty r ts).2.interactions_df =
      e.interactions_df ++ [⟨uid, pid, ty, r, ts⟩] ∧
    (add_user_interaction e uid pid ty r ts).2.products_df = e.products_df ∧
    (add_user_interaction e uid pid ty r ts).2.product_similarity_matrix =
      e.product_similarity_matrix :=
  ⟨rfl, rfl, rfl, rfl⟩

/-- **C7**: the similarity matrix built by `_compute_product_similarity` is
symmetric, every diagonal entry is exactly 1 when the row's feature vector is
non-zero, and a zero-norm feature vector yields similarity 0 with every row
(itself included) with no division by zero. -/
theorem similarity_matrix_symm_diag_zero (catalog : List Product) (i j : ℕ) :
    product_similarity_matrixR catalog i j = product_similarity_matrixR catalog j i ∧
    (dotQ (featureRow catalog i) (featureRow catalog i) ≠ 0 →
      product_similarity_matrixR catalog i i = 1) ∧
    (dotQ (featureRow catalog i) (featureRow catalog i) = 0 →
      product_similarity_matrixR catalog i j = 0 ∧
      product_similarity_matrixR catalog j i = 0) :=
  ⟨cosineSim_comm _ _,
   fun h => cosineSim_self _ h,
   fun h => ⟨cosineSim_zero_left _ _ h, cosineSim_zero_right _ _ h⟩⟩

/-- Witness for C7 at the concrete catalog `catDup`: row 0 has the non-zero
feature vector `[1, 0, 0]`, so the diagonal entry is 1. -/
theorem similarity_matrix_symm_diag_zero_witness :
    dotQ (featureRow catDup 0) (featureRow catDup 0) ≠ 0 ∧
    product_similarity_matrixR catDup 0 0 = 1 := by
  have hrow : featureRow catDup 0 = [1, 0, 0] := by decide
  have hdot : dotQ (featureRow catDup 0) (featureRow catDup 0) ≠ 0 := by
    rw [hrow]
    norm_num [dotQ]
  exact ⟨hdot, (similarity_matrix_symm_diag_zero catDup 0 0).2.1 hdot⟩

/-- **C9**: each numeric column (`price`, `rating`) is min-max rescaled via
`(x - min) / (max - min)` over the whole catalog and lands in `[0, 1]`; when
the column is constant (`max = min`) every row scales to 0 and no division
error occurs. -/
theorem minmax_scaling_bounds (catalog : List Product) (col : List ℚ)
    (_hcol : col = catalog.map Product.price ∨ col = catalog.map Product.rating) :
    (colMax col ≠ colMin col →
      minmaxScale col =
        col.map (fun x => (x - colMin col) / (colMax col - colMin col)) ∧
      ∀ y ∈ minmaxScale col, 0 ≤ y ∧ y ≤ 1) ∧
    (colMax col = colMin col → ∀ y ∈ minmaxScale col, y = 0) := by
  constructor
  · intro h
    refine ⟨by rw [minmaxScale, if_neg h], ?_⟩
    intro y hy
    rw [minmaxScale, if_neg h] at hy
    obtain ⟨x, hx, rfl⟩ := List.mem_map.mp hy
    have hmin := colMin_le col x hx
    have hmax := le_colMax col x hx
    have hlt : colMin col < colMax col :=
      lt_of_le_of_ne (hmin.trans hmax) (fun he => h he.symm)
    have hpos : (0 : ℚ) < colMax col - colMin col := sub_pos.mpr hlt
    refine ⟨div_nonneg (sub_nonneg.mpr hmin) hpos.le, ?_⟩
    rw [div_le_one hpos]
    linarith
  · intro h y hy
    rw [minmaxScale, if_pos h] at hy
    obtain ⟨x, hx, rfl⟩ := List.mem_map.mp hy
    rfl

/-- Witness for C9: on `cat3` the price column `[100, 110, 10]` is
non-degenerate and every scaled price lies in `[0, 1]`; on `catDup` the price
column `[10, 10]` is constant and scales to all zeros. -/
theorem minmax_scaling_bounds_witness :
    ((cat3.map Product.price = cat3.map Product.price ∨
      cat3.map Product.price = cat3.map Product.rating) ∧
     colMax (cat3.map Product.price) ≠ colMin (cat3.map Product.price) ∧
     ∀ y ∈ minmaxScale (cat3.map Product.price), 0 ≤ y ∧ y ≤ 1) ∧
    ((catDup.map Product.price = catDup.map Product.price ∨
      catDup.map Product.price = catDup.map Product.rating) ∧
     colMax (catDup.map Product.price) = colMin (catDup.map Product.price) ∧
     ∀ y ∈ minmaxScale (catDup.map Product.price), y = 0) :=
  ⟨⟨Or.inl rfl, by decide,
    ((minmax_scaling_bounds cat3 _ (Or.inl rfl)).1 (by decide)).2⟩,
   ⟨Or.inl rfl, by decide,
    (minmax_scaling_bounds catDup _ (Or.inl rfl)).2 (by decide)⟩⟩

/-- **C6**: an unknown product id yields an empty list from
`get_similar_products`, and on an empty catalog all four read queries —
similar, trending, by-category, for-user — return an empty list; every query
is total (the embedding is a total function, mirroring the code's
`try/except` and `isEmpty` guards). -/
theorem queries_total_on_missing_and_empty (M : ℕ → ℕ → ℚ) (pid cat uid : String)
    (k : ℕ) (catalog : List Product) (hmiss : ∀ p ∈ catalog, p.product_id ≠ pid)
    (e : Engine) (he : e.products_df = []) (order : List String) :
    get_similar_products catalog M pid k = [] ∧
    get_similar_products [] M pid k = [] ∧
    get_trending_products [] k = [] ∧
    get_products_by_category [] cat k = [] ∧
    resultProductIds (get_recommendations_for_user e uid k order) = [] := by
  refine ⟨?_, rfl, rfl, rfl, ?_⟩
  · rw [get_similar_products]
    split
    · rfl
    · have hnone : catalog.findIdx? (fun p => p.product_id == pid) = none :=
        List.findIdx?_eq_none_iff.mpr (fun p hp => by simpa using hmiss p hp)
      rw [hnone]
  · have hsim : ∀ pid2 : String,
        get_similar_products e.products_df e.product_similarity_matrix pid2 10 = [] := by
      intro pid2
      rw [he]
      rfl
    have hcs : candidateStream e order = [] := by
      simp [candidateStream, hsim]
    rw [get_recommendations_for_user]
    split
    · simp [resultProductIds, he, get_trending_products]
    · simp [resultProductIds, filteredCandidates, hcs, dedupLoop]

/-- Witness for C6: the id "NOPE" is not in `cat4`, and `eEmpty` has an empty
catalog but a recorded interaction, exercising the personalized branch. -/
theorem queries_total_on_missing_and_empty_witness :
    (∀ p ∈ cat4, p.product_id ≠ "NOPE") ∧ eEmpty.products_df = [] ∧
    (get_similar_products cat4 M4 "NOPE" 5 = [] ∧
     get_similar_products [] M4 "NOPE" 5 = [] ∧
     get_trending_products [] 5 = [] ∧
     get_products_by_category [] "Books" 5 = [] ∧
     resultProductIds (get_recommendations_for_user eEmpty "u" 5 ["P1"]) = []) :=
  ⟨by decide, rfl,
   queries_total_on_missing_and_empty M4 "NOPE" "Books" "u" 5 cat4 (by decide)
     eEmpty rfl ["P1"]⟩

/-- **C3**: no product id in a user's interacted set ever appears in the list
returned by `get_recommendations_for_user`, in either branch and for every
hash-set iteration order. -/
theorem for_user_never_returns_interacted (e : Engine) (uid : String)
    (limit : ℕ) (order : List String) (pid : String)
    (hpid : pid ∈ interactedProducts e uid) :
    pid ∉ resultProductIds (get_recommendations_for_user e uid limit order) := by
  rw [get_recommendations_for_user]
  split
  · next hEmpty =>
    exfalso
    have hnil : userInteractions e uid = [] := List.isEmpty_iff.mp hEmpty
    rw [interactedProducts, hnil] at hpid
    simp at hpid
  · simp only [resultProductIds]
    intro hmem
    obtain ⟨r, hr, hrpid⟩ := List.mem_map.mp hmem
    have hr1 : r ∈ dedupLoop (filteredCandidates e uid order) [] :=
      List.mem_of_mem_take hr
    have hr2 : r ∈ filteredCandidates e uid order :=
      (dedupLoop_sublist _ _).subset hr1
    rw [filteredCandidates, List.mem_filter] at hr2
    have h3 := hr2.2
    simp only [decide_eq_true_eq] at h3
    exact h3 (by rw [hrpid]; exact hpid)

/-- Witness for C3 at `e1`: user "u" has interacted with "P1", and "P1" is
not among the returned ids. -/
theorem for_user_never_returns_interacted_witness :
    "P1" ∈ interactedProducts e1 "u" ∧
    "P1" ∉ resultProductIds (get_recommendations_for_user e1 "u" 5 ["P1"]) :=
  ⟨by decide, for_user_never_returns_interacted e1 "u" 5 ["P1"] "P1" (by decide)⟩

/-- **C2**: for a user with interactions, the result is the concatenated
candidate stream (in iteration order) filtered of interacted ids, then
deduplicated keeping the *first* occurrence of each product id — so the score
attached is that first occurrence's, not the best across sources — then
truncated to `limit` preserving order.  The kept list is duplicate-free by id,
is an order-preserving sublist of the filtered stream, and each kept record is
literally the first record of the filtered stream bearing its id. -/
theorem for_user_first_seen_dedup (e : Engine) (uid : String) (limit : ℕ)
    (order : List String) (h : (userInteractions e uid).isEmpty = false) :
    get_recommendations_for_user e uid limit order =
      Sum.inl ((dedupLoop (filteredCandidates e uid order) []).take limit) ∧
    ∀ l, get_recommendations_for_user e uid limit order = Sum.inl l →
      l.length ≤ limit ∧
      (l.map SimItem.product_id).Nodup ∧
      List.Sublist l (filteredCandidates e uid order) ∧
      ∀ r ∈ l, (filteredCandidates e uid order).find?
        (fun s => s.product_id == r.product_id) = some r := by
  have heq : get_recommendations_for_user e uid limit order =
      Sum.inl ((dedupLoop (filteredCandidates e uid order) []).take limit) := by
    rw [get_recommendations_for_user, if_neg (by simp [h])]
  refine ⟨heq, ?_⟩
  intro l hl
  rw [heq] at hl
  have hleq := Sum.inl.inj hl
  subst hleq
  refine ⟨List.length_take_le _ _, ?_, ?_, ?_⟩
  · exact (dedupLoop_nodup _ _).sublist ((List.take_sublist _ _).map _)
  · exact (List.take_sublist _ _).trans (dedupLoop_sublist _ _)
  · intro r hr
    exact dedupLoop_find? _ _ _ (List.mem_of_mem_take hr)

/-- Witness for C2 at `e4` with iteration order `["P1", "P2"]`. -/
theorem for_user_first_seen_dedup_witness :
    (userInteractions e4 "u").isEmpty = false ∧
    (get_recommendations_for_user e4 "u" 5 ["P1", "P2"] =
      Sum.inl ((dedupLoop (filteredCandidates e4 "u" ["P1", "P2"]) []).take 5) ∧
     ∀ l, get_recommendations_for_user e4 "u" 5 ["P1", "P2"] = Sum.inl l →
      l.length ≤ 5 ∧
      (l.map SimItem.product_id).Nodup ∧
      List.Sublist l (filteredCandidates e4 "u" ["P1", "P2"]) ∧
      ∀ r ∈ l, (filteredCandidates e4 "u" ["P1", "P2"]).find?
        (fun s => s.product_id == r.product_id) = some r) :=
  ⟨rfl, for_user_first_seen_dedup e4 "u" 5 ["P1", "P2"] rfl⟩

/-- **C5**: for a product present in the catalog and any `k ≥ 1`,
`get_similar_products` returns at most `k` items, the similarity scores are
non-increasing along the returned list, and the selected `(index, score)`
pairs are sorted by the lexicographic order "score descending, catalog index
ascending" — equal scores appear in ascending original catalog row order. -/
theorem similar_products_ranked (catalog : List Product) (M : ℕ → ℕ → ℚ)
    (pid : String) (k : ℕ)
    (hp : ∃ p ∈ catalog, p.product_id = pid) (_hk : 1 ≤ k) :
    (get_similar_products catalog M pid k).length ≤ k ∧
    List.Chain' (fun a b : ℚ => b ≤ a)
      ((get_similar_products catalog M pid k).map SimItem.similarity_score) ∧
    (∀ i, List.Pairwise rankRel (similarity_scores M catalog.length i k)) ∧
    ∀ i, catalog.findIdx? (fun p => p.product_id == pid) = some i →
      get_similar_products catalog M pid k =
        (similarity_scores M catalog.length i k).map
          (fun js => mkSimItem catalog js.1 js.2) := by
  have hpair : ∀ i, List.Pairwise rankRel (similarity_scores M catalog.length i k) :=
    fun i => similarity_scores_pairwise M catalog.length i k
  by_cases hemp : catalog.isEmpty
  · obtain ⟨p, hp0, _⟩ := hp
    rw [List.isEmpty_iff.mp hemp] at hp0
    cases hp0
  · cases hfind : catalog.findIdx? (fun p => p.product_id == pid) with
    | none =>
      exfalso
      obtain ⟨p, hpmem, hpeq⟩ := hp
      have := List.findIdx?_eq_none_iff.mp hfind p hpmem
      simp [hpeq] at this
    | some i =>
      have hres : get_similar_products catalog M pid k =
          (similarity_scores M catalog.length i k).map
            (fun js => mkSimItem catalog js.1 js.2) := by
        rw [get_similar_products, if_neg (by simp [hemp]), hfind]
      refine ⟨?_, ?_, hpair, ?_⟩
      · rw [hres, List.length_map]
        exact List.length_take_le _ _
      · have hcast : ((similarity_scores M catalog.length i k).map
            (fun js => mkSimItem catalog js.1 js.2)).map SimItem.similarity_score =
            (similarity_scores M catalog.length i k).map Prod.snd := by
          rw [List.map_map]
          rfl
        rw [hres, hcast]
        exact (List.pairwise_map.mpr ((hpair i).imp rankRel_snd_le)).chain'
      · intro i2 hi2
        have h12 : i = i2 := Option.some.inj hi2
        rw [← h12]
        exact hres

/-- Witness for C5 at `cat4`, query "P1", `k = 2`. -/
theorem similar_products_ranked_witness :
    (∃ p ∈ cat4, p.product_id = "P1") ∧ 1 ≤ 2 ∧
    ((get_similar_products cat4 M4 "P1" 2).length ≤ 2 ∧
     List.Chain' (fun a b : ℚ => b ≤ a)
       ((get_similar_products cat4 M4 "P1" 2).map SimItem.similarity_score) ∧
     (∀ i, List.Pairwise rankRel (similarity_scores M4 cat4.length i 2)) ∧
     ∀ i, cat4.findIdx? (fun p => p.product_id == "P1") = some i →
       get_similar_products cat4 M4 "P1" 2 =
         (similarity_scores M4 cat4.length i 2).map
           (fun js => mkSimItem cat4 js.1 js.2)) :=
  ⟨by decide, by decide,
   similar_products_ranked cat4 M4 "P1" 2 (by decide) (by decide)⟩

/-- The trending score recomputed from the fields a returned trending dict
carries. -/
def trendItemScore (t : TrendItem) : ℚ :=
  (t.views : ℚ) * (3 / 10) + (t.purchases : ℚ) * (1 / 2) + t.rating * 100 * (1 / 5)

/-- **C4**: `get_trending_products` scores every row as
`views * 0.3 + purchases * 0.5 + rating * 100 * 0.2`, returns the top-`limit`
rows by that score in descending order with ties broken by original catalog
row order, returns `[]` on an empty catalog, and is a pure function of the
catalog (the code works on `df.copy()`; the embedding takes the catalog by
value and touches no state). -/
theorem trending_products_ranked (catalog : List Product) (limit : ℕ) :
    get_trending_products [] limit = [] ∧
    (get_trending_products catalog limit).length ≤ limit ∧
    get_trending_products catalog limit =
      (trendingRanked catalog limit).map (fun js => mkTrendItem catalog js.1) ∧
    List.Pairwise rankRel (trendingRanked catalog limit) ∧
    (∀ a ∈ trendingRanked catalog limit,
      a.1 < catalog.length ∧ a.2 = trending_score (catalog.getD a.1 default)) ∧
    (∀ a ∈ trendingRanked catalog limit,
      ∀ b ∈ (List.insertionSort rankRel (trendingScored catalog)).drop limit,
        rankRel a b) ∧
    List.Chain' (fun s t => trendItemScore t ≤ trendItemScore s)
      (get_trending_products catalog limit) := by
  have hsorted := List.sorted_insertionSort rankRel (trendingScored catalog)
  have hpair : List.Pairwise rankRel (trendingRanked catalog limit) :=
    hsorted.sublist (List.take_sublist _ _)
  have hmem : ∀ a ∈ trendingRanked catalog limit,
      a.1 < catalog.length ∧ a.2 = trending_score (catalog.getD a.1 default) := by
    intro a ha
    have h1 : a ∈ List.insertionSort rankRel (trendingScored catalog) :=
      List.mem_of_mem_take ha
    have h2 : a ∈ trendingScored catalog := (List.mem_insertionSort rankRel).mp h1
    rw [trendingScored] at h2
    obtain ⟨j, hj, rfl⟩ := List.mem_map.mp h2
    exact ⟨List.mem_range.mp hj, rfl⟩
  have heq : get_trending_products catalog limit =
      (trendingRanked catalog limit).map (fun js => mkTrendItem catalog js.1) := by
    rw [get_trending_products]
    split
    · next hempty =>
      rw [List.isEmpty_iff.mp hempty]
      simp [trendingRanked, trendingScored]
    · rfl
  refine ⟨rfl, ?_, heq, hpair, hmem, ?_, ?_⟩
  · rw [heq, List.length_map]
    exact List.length_take_le _ _
  · intro a ha b hb
    exact pairwise_take_drop hsorted limit a ha b hb
  · rw [heq]
    refine (List.pairwise_map.mpr ?_).chain'
    refine hpair.imp_of_mem ?_
    intro a b ha hb hr
    have ha2 : trendItemScore (mkTrendItem catalog a.1) = a.2 := by
      rw [(hmem a ha).2]
      rfl
    have hb2 : trendItemScore (mkTrendItem catalog b.1) = b.2 := by
      rw [(hmem b hb).2]
      rfl
    rw [ha2, hb2]
    exact rankRel_snd_le hr

/-- **C1 (refuted by the code)**: in `catDup` the two rows carry identical
features, so both rows tie at similarity 1 with row 1 — and the exact cosine
matrix really is constantly 1, as the first conjunct verifies.  The stable
descending sort leaves the tie in index order `[(0, 1), (1, 1)]`, and the
slice `[1:limit+1]` drops row 0 — not the query — so
`get_similar_products("P002", 5)` returns the query product "P002" itself,
contradicting the code's own comment "excluding the product itself". -/
theorem similar_products_returns_query_itself :
    (∀ i j, i < 2 → j < 2 → product_similarity_matrixR catDup i j = 1) ∧
    (get_similar_products catDup (fun _ _ => 1) "P002" 5).map SimItem.product_id =
      ["P002"] := by
  constructor
  · intro i j hi hj
    have h0 : featureRow catDup 0 = [1, 0, 0] := by decide
    have h1 : featureRow catDup 1 = [1, 0, 0] := by decide
    have hd : dotQ [(1 : ℚ), 0, 0] [(1 : ℚ), 0, 0] ≠ 0 := by norm_num [dotQ]
    interval_cases i <;> interval_cases j <;>
      simp only [product_similarity_matrixR, h0, h1] <;>
      exact cosineSim_self _ hd
  · decide

/-- **C8 (refuted by the code)**: `["P1", "P2"]` and `["P2", "P1"]` are both
valid iteration orders of user "u"'s interacted-product hash set in `e4`, and
`M4` is exactly the cosine similarity matrix of `cat4` (third conjunct), yet
the two orders yield different result lists — `[P3 @ 1, P4 @ 0]` versus
`[P4 @ 1, P3 @ 0]` — so the function's output depends on the unspecified
`set` iteration order rather than on a fixed, reproducible one. -/
theorem for_user_depends_on_set_order :
    IsSetOrder e4 "u" ["P1", "P2"] ∧
    IsSetOrder e4 "u" ["P2", "P1"] ∧
    (∀ i j, i < 4 → j < 4 →
      product_similarity_matrixR cat4 i j = ((M4 i j : ℚ) : ℝ)) ∧
    get_recommendations_for_user e4 "u" 5 ["P1", "P2"] ≠
      get_recommendations_for_user e4 "u" 5 ["P2", "P1"] := by
  refine ⟨⟨by decide, by decide⟩, ⟨by decide, by decide⟩, ?_, by decide⟩
  intro i j hi hj
  have h0 : featureRow cat4 0 = [1, 0, 0, 0] := by decide
  have h1 : featureRow cat4 1 = [0, 1, 0, 0] := by decide
  have h2 : featureRow cat4 2 = [1, 0, 0, 0] := by decide
  have h3 : featureRow cat4 3 = [0, 1, 0, 0] := by decide
  have hA : cosineSim [(1 : ℚ), 0, 0, 0] [(1 : ℚ), 0, 0, 0] = 1 :=
    cosineSim_self _ (by norm_num [dotQ])
  have hB : cosineSim [(0 : ℚ), 1, 0, 0] [(0 : ℚ), 1, 0, 0] = 1 :=
    cosineSim_self _ (by norm_num [dotQ])
  have hAB : cosineSim [(1 : ℚ), 0, 0, 0] [(0 : ℚ), 1, 0, 0] = 0 :=
    cosineSim_of_dot_zero _ _ (by norm_num [dotQ])
  have hBA : cosineSim [(0 : ℚ), 1, 0, 0] [(1 : ℚ), 0, 0, 0] = 0 :=
    cosineSim_of_dot_zero _ _ (by norm_num [dotQ])
  interval_cases i <;> interval_cases j <;>
    simp only [product_similarity_matrixR, h0, h1, h2, h3, hA, hB, hAB, hBA] <;>
    norm_num [M4]

end RecEngine
